import Mathlib

/-!
Verification of the IPI stripe-steganography pipeline (src/utils.py,
src/encode.py, src/decode.py) against its natural-language specification.

Modelling conventions:
* numpy float arithmetic is modelled over the rationals;
* Python machine integers are modelled as unbounded integers (no overflow
  occurs at the sizes involved);
* Python int() and numpy astype casts truncate toward zero (pyInt below);
* grids (numpy 2-d arrays) are modelled as functions from row/column
  indices to sample values; claims quantify the indices inside the array
  shape where the shape matters;
* external rendering primitives (cv2 font rasterization, the sine of an
  arbitrary angle, the interpolation taps of cv2.warpAffine for an
  arbitrary rotation matrix) are transcendental or font-dependent and are
  passed in as abstract parameters; every theorem quantifies over them.
-/

namespace IPI

/-- Python int() / numpy astype on a nonnegative-or-negative rational:
truncation toward zero (floor for nonnegative values, ceiling for
negative ones). -/
def pyInt (q : ℚ) : ℤ := if 0 ≤ q then ⌊q⌋ else ⌈q⌉

/-- np.clip(x, lo, hi) = min(max(x, lo), hi). -/
def npClip (x lo hi : ℚ) : ℚ := min (max x lo) hi

/-- utils.map_brightness_to_thickness: linear map of a block's average
brightness into the thickness range, then np.clip to
[min_thickness, max_thickness] and Python int() truncation. -/
def map_brightness_to_thickness (avg_brightness : ℚ) (min_thickness max_thickness : ℤ)
    (min_brightness max_brightness : ℚ) : ℤ :=
  let thickness : ℚ :=
    (min_thickness : ℚ) +
      (avg_brightness - min_brightness) * ((max_thickness : ℚ) - (min_thickness : ℚ)) /
        (max_brightness - min_brightness)
  pyInt (npClip thickness (min_thickness : ℚ) (max_thickness : ℚ))

/-- utils.generate_key_pattern: vertical stripe pattern on a
height × width uint8 grid initialised to zero.  For each column x inside
the array: binary stripes set the column to 255 when x % p < p // 2 and
to 0 otherwise; sinusoidal stripes store the uint8 value of
(255 * (1 + sin(2*pi*x / p))) / 2, which involves the sine of an arbitrary
rational angle and is therefore supplied as the abstract column map
sinCol; any other stripe_type leaves the zero initialisation in place.
Indices outside the array read as the zero fill. -/
def generate_key_pattern (sinCol : ℕ → ℕ) (height width p : ℕ) (stripe_type : String) :
    ℕ → ℕ → ℕ :=
  fun y x =>
    if y < height ∧ x < width then
      if stripe_type = "binary" then
        if x % p < p / 2 then 255 else 0
      else if stripe_type = "sinusoidal" then sinCol x
      else 0
    else 0

/-- Wrap an integer source coordinate into [0, width) as cv2.BORDER_WRAP
does (cyclic extension of the array). -/
def wrapIdx (width : ℕ) (i : ℤ) : ℕ := (i % (width : ℤ)).toNat

/-- utils.generate_shifted_key: cv2.warpAffine with the translation matrix
[[1,0,shift],[0,1,0]] and borderMode=BORDER_WRAP.  The destination pixel
at column x reads the source pixel at column (x - shift) wrapped
cyclically into the image width (warpAffine inverts the forward matrix);
integer shifts sample the source exactly. -/
def generate_shifted_key (K : ℕ → ℕ → ℕ) (width : ℕ) (shift : ℤ) : ℕ → ℕ → ℕ :=
  fun y x => K y (wrapIdx width ((x : ℤ) - shift))

/-- encode.py line 82: one pixel of the stripe/text blend
E_stripe = K * (1 - T) + K_shifted * T, over floats. -/
def stripe_pixel (k ks : ℕ) (t : ℚ) : ℚ := (k : ℚ) * (1 - t) + (ks : ℚ) * t

/-- encode.py line 105: np.clip(_, 0, 255).astype(np.uint8) applied to one
float pixel; the cast truncates toward zero. -/
def quantize_pixel (q : ℚ) : ℕ := (pyInt (npClip q 0 255)).toNat

/-- encode.py lines 104-105: one pixel of the final blend
E = line_image * (1 - amplitude) + E_stripe * amplitude, clipped to
[0, 255] and cast to uint8. -/
def encode_pixel (line : ℕ) (stripe : ℚ) (amplitude : ℚ) : ℕ :=
  quantize_pixel ((line : ℚ) * (1 - amplitude) + stripe * amplitude)

/-- External font rasterization backend of utils.create_text_image.
textSize c models cv2.getTextSize(c, font, font_scale, thickness)[0]
(the (width, height) pair for one character under the fixed font, scale
and thickness of the call); glyphInk c ox oy y x models whether
cv2.putText of character c at origin (ox, oy) inks the canvas pixel at
row y, column x.  Both depend on the proprietary Hershey font tables and
are kept abstract. -/
structure FontBackend where
  textSize : Char → ℕ × ℕ
  glyphInk : Char → ℤ → ℤ → ℕ → ℕ → Bool

/-- cv2.putText on a uint8 canvas: inked pixels are set to the colour 255,
all other pixels keep their previous value. -/
def put_text (fb : FontBackend) (canvas : ℕ → ℕ → ℕ) (c : Char) (ox oy : ℤ) :
    ℕ → ℕ → ℕ :=
  fun y x => if fb.glyphInk c ox oy y x then 255 else canvas y x

/-- utils.create_text_image lines 114-121: accumulate the horizontal
offset of each character.  Returns the list of (char, x_pos, char_w)
triples together with the final x_pos. -/
def char_layout (fb : FontBackend) (text : List Char) (letter_spacing : ℕ) :
    List (Char × ℕ × ℕ) × ℕ :=
  text.foldl
    (fun acc c =>
      let char_w := (fb.textSize c).1
      (acc.1 ++ [(c, acc.2, char_w)], acc.2 + char_w + letter_spacing))
    ([], 0)

/-- utils.create_text_image lines 130-132: axis-aligned bounding box of the
rotated text instance, int(|w cos| + |h sin|) by int(|w sin| + |h cos|),
taking the cosine and sine of the rotation angle as rational parameters
(np.cos/np.sin of an arbitrary angle are transcendental). -/
def rot_bbox (text_w text_h : ℕ) (cosA sinA : ℚ) : ℕ × ℕ :=
  ((pyInt (|(text_w : ℚ) * cosA| + |(text_h : ℚ) * sinA|)).toNat,
   (pyInt (|(text_w : ℚ) * sinA| + |(text_h : ℚ) * cosA|)).toNat)

/-- Python range(start, stop, step) for a positive step. -/
def py_range (start stop step : ℤ) : List ℤ :=
  (List.range ((stop - start + step - 1) / step).toNat).map (fun k => start + k * step)

/-- utils.create_text_image lines 143-154: tile the text instances over the
zero-initialised square canvas; for every grid position and every laid-out
character, putText draws it at (x_base + x_offset, y + text_h). -/
def tile_text (fb : FontBackend) (cps : List (Char × ℕ × ℕ)) (text_h : ℕ)
    (ys xs : List ℤ) : ℕ → ℕ → ℕ :=
  ys.foldl
    (fun canvas y =>
      xs.foldl
        (fun canvas x_base =>
          cps.foldl
            (fun canvas cp => put_text fb canvas cp.1 (x_base + (cp.2.1 : ℤ)) (y + (text_h : ℤ)))
            canvas)
        canvas)
    (fun _ _ => 0)

/-- cv2.warpAffine with the rotation matrix of lines 157-159 and
borderValue=0: each destination pixel is a weighted combination of source
samples whose coordinates and interpolation weights come from the inverse
rotation map; samples outside the n × n canvas read the border value 0.
The tap positions and weights are determined by trigonometry of the
rotation angle and are supplied abstractly. -/
def warp_rotate (taps : ℕ → ℕ → List (ℚ × ℤ × ℤ)) (n : ℕ) (src : ℕ → ℕ → ℕ) :
    ℕ → ℕ → ℚ :=
  fun y x =>
    ((taps y x).map
      (fun t =>
        t.1 * (if 0 ≤ t.2.1 ∧ t.2.1 < (n : ℤ) ∧ 0 ≤ t.2.2 ∧ t.2.2 < (n : ℤ)
               then (src t.2.1.toNat t.2.2.toNat : ℚ) else 0))).sum

/-- utils.create_text_image: lay out the characters, compute the rotated
bounding box and the oversized square canvas (side = int(sqrt(h^2+w^2)) +
max(rotated_w, rotated_h)), tile the text with steps
max(int(rotated * spacing), 1), rotate the canvas when the angle is
nonzero, crop a centred height × width window, and normalise to [0, 1] by
dividing by 255.  The crop always has the requested shape (the canvas side
is at least sqrt(h^2+w^2) ≥ max h w), so the nearest-neighbour resize
branch of lines 167-168 never runs.  The font, font_scale and thickness
arguments of the Python signature are folded into the FontBackend; the
angle enters through its cosine/sine values and the angle_zero flag of
the line-157 test. -/
def create_text_image (fb : FontBackend) (taps : ℕ → ℕ → List (ℚ × ℤ × ℤ))
    (text : List Char) (height width : ℕ) (cosA sinA : ℚ) (angle_zero : Bool)
    (spacing_x spacing_y : ℚ) (letter_spacing : ℕ) : ℕ → ℕ → ℚ :=
  let layout := char_layout fb text letter_spacing
  let char_positions := layout.1
  let x_pos := layout.2
  let text_w : ℕ := if text.isEmpty then 0 else x_pos - letter_spacing
  let text_h : ℕ := (fb.textSize (text.headD 'A')).2
  let rdims := rot_bbox text_w text_h cosA sinA
  let rotated_w := rdims.1
  let rotated_h := rdims.2
  let diagonal := Nat.sqrt (height ^ 2 + width ^ 2) + max rotated_w rotated_h
  let step_x : ℤ := max (pyInt ((rotated_w : ℚ) * spacing_x)) 1
  let step_y : ℤ := max (pyInt ((rotated_h : ℚ) * spacing_y)) 1
  let ys := py_range (-(rotated_h : ℤ)) ((diagonal : ℤ) + rotated_h) step_y
  let xs := py_range (-(rotated_w : ℤ)) ((diagonal : ℤ) + rotated_w) step_x
  let canvas := tile_text fb char_positions text_h ys xs
  let rotated : ℕ → ℕ → ℚ :=
    if angle_zero then (fun y x => (canvas y x : ℚ)) else warp_rotate taps diagonal canvas
  let start_x := (diagonal - width) / 2
  let start_y := (diagonal - height) / 2
  fun y x => rotated (start_y + y) (start_x + x) / 255

/-- decode.py lines 24-31: resolution of the stego image's metadata into
the (stripe_period, stripe_type) pair.  metadata.get("stripe_period", 10)
returns the default 10 when the key is absent; when present, int() parses
the stored string and a parse failure is re-raised as the ValueError of
the except-block; metadata.get("stripe_type", "binary") likewise defaults
to "binary". -/
def decode_metadata (metadata : List (String × String)) : Except String (ℤ × String) :=
  let periodEntry : Option String :=
    (metadata.find? (fun kv => kv.1 == "stripe_period")).map (fun kv => kv.2)
  let stripe_type : String :=
    ((metadata.find? (fun kv => kv.1 == "stripe_type")).map (fun kv => kv.2)).getD "binary"
  match periodEntry with
  | none => Except.ok (10, stripe_type)
  | some s =>
    match s.toInt? with
    | some p => Except.ok (p, stripe_type)
    | none => Except.error "Could not read metadata"

/-! ### Helper lemmas about the scalar numeric model -/

theorem pyInt_mono {a b : ℚ} (h : a ≤ b) : pyInt a ≤ pyInt b := by
  unfold pyInt
  by_cases ha : 0 ≤ a
  · rw [if_pos ha, if_pos (le_trans ha h)]
    exact Int.floor_le_floor h
  · rw [if_neg ha]
    by_cases hb : 0 ≤ b
    · rw [if_pos hb]
      have h1 : ⌈a⌉ ≤ 0 := Int.ceil_le.mpr (by exact_mod_cast le_of_lt (not_le.mp ha))
      have h2 : (0 : ℤ) ≤ ⌊b⌋ := Int.floor_nonneg.mpr hb
      omega
    · rw [if_neg hb]
      exact Int.ceil_le_ceil h

theorem pyInt_bounds {q : ℚ} {lo hi : ℤ} (hlo : (lo : ℚ) ≤ q) (hhi : q ≤ (hi : ℚ)) :
    lo ≤ pyInt q ∧ pyInt q ≤ hi := by
  unfold pyInt
  by_cases hq : 0 ≤ q
  · rw [if_pos hq]
    refine ⟨Int.le_floor.mpr hlo, ?_⟩
    calc ⌊q⌋ ≤ ⌊(hi : ℚ)⌋ := Int.floor_le_floor hhi
      _ = hi := Int.floor_intCast hi
  · rw [if_neg hq]
    refine ⟨?_, Int.ceil_le.mpr hhi⟩
    have h1 : (lo : ℚ) ≤ (⌈q⌉ : ℚ) := le_trans hlo (Int.le_ceil q)
    exact_mod_cast h1

theorem npClip_mono {x y : ℚ} (lo hi : ℚ) (h : x ≤ y) : npClip x lo hi ≤ npClip y lo hi :=
  min_le_min (max_le_max h le_rfl) le_rfl

theorem npClip_mem (x : ℚ) {lo hi : ℚ} (h : lo ≤ hi) :
    lo ≤ npClip x lo hi ∧ npClip x lo hi ≤ hi :=
  ⟨le_min (le_max_right x lo) h, min_le_right _ _⟩

theorem quantize_pixel_natCast (n : ℕ) (h : n ≤ 255) : quantize_pixel (n : ℚ) = n := by
  unfold quantize_pixel npClip pyInt
  have h0 : (0 : ℚ) ≤ (n : ℚ) := Nat.cast_nonneg n
  have h255 : (n : ℚ) ≤ 255 := by exact_mod_cast h
  rw [max_eq_left h0, min_eq_left h255, if_pos h0, Int.floor_natCast, Int.toNat_natCast]

theorem stripe_pixel_bounds {k ks : ℕ} {t : ℚ} (hk : k ≤ 255) (hks : ks ≤ 255)
    (ht0 : 0 ≤ t) (ht1 : t ≤ 1) :
    0 ≤ stripe_pixel k ks t ∧ stripe_pixel k ks t ≤ 255 := by
  unfold stripe_pixel
  have hk' : (k : ℚ) ≤ 255 := by exact_mod_cast hk
  have hks' : (ks : ℚ) ≤ 255 := by exact_mod_cast hks
  have hk0 : (0 : ℚ) ≤ (k : ℚ) := Nat.cast_nonneg k
  have hks0 : (0 : ℚ) ≤ (ks : ℚ) := Nat.cast_nonneg ks
  constructor
  · have h1 : (0 : ℚ) ≤ (k : ℚ) * (1 - t) := mul_nonneg hk0 (by linarith)
    have h2 : (0 : ℚ) ≤ (ks : ℚ) * t := mul_nonneg hks0 ht0
    linarith
  · nlinarith

/-! ### Claims -/

/-- C1: the decode metadata resolution of decode.py, evaluated at a stego
image whose metadata carries neither a stripe_period nor a stripe_type
entry, returns the default parameters (10, "binary") and proceeds; it
does not produce the missing-metadata error that the specification (and
the function's own docstring) require. -/
theorem decode_metadata_missing_defaults :
    decode_metadata [] = Except.ok (10, "binary") := rfl

/-- Bright-column test exactly as claim C2 states it, with real division:
column x is bright when x mod p < p / 2 over the rationals. -/
def bright_real (p x : ℕ) : Prop := ((x % p : ℕ) : ℚ) < (p : ℚ) / 2

/-- C2 counterexample: with p = 3 and column x = 1, the claim's real-division
test says the column is bright (1 < 3/2), but the generated pattern value
is 0, not 255 (the code tests x % p < p // 2 with integer division). -/
theorem generate_key_pattern_real_division_counterexample :
    bright_real 3 1 ∧ generate_key_pattern (fun _ => 0) 1 2 3 "binary" 0 1 ≠ 255 := by
  constructor
  · unfold bright_real
    norm_num
  · decide

/-- C2 (amended: integer division): for every height, width, period p ≥ 1
and in-range row y and column x, the binary key pattern has value 255 when
x % p < p / 2 (floor division) and 0 otherwise, and the value is identical
down each column. -/
theorem generate_key_pattern_binary_column (sinCol : ℕ → ℕ) (height width p y x : ℕ)
    (_hp : 1 ≤ p) (hy : y < height) (hx : x < width) :
    (generate_key_pattern sinCol height width p "binary" y x =
      if x % p < p / 2 then 255 else 0) ∧
    (∀ y2, y2 < height →
      generate_key_pattern sinCol height width p "binary" y2 x =
        generate_key_pattern sinCol height width p "binary" y x) := by
  constructor
  · simp [generate_key_pattern, hy, hx]
  · intro y2 hy2
    simp [generate_key_pattern, hy, hy2, hx]

theorem generate_key_pattern_binary_column_witness :
    (1 ≤ 3 ∧ 0 < 1 ∧ 1 < 2) ∧
    ((generate_key_pattern (fun _ => 0) 1 2 3 "binary" 0 1 =
        if 1 % 3 < 3 / 2 then 255 else 0) ∧
      (∀ y2, y2 < 1 →
        generate_key_pattern (fun _ => 0) 1 2 3 "binary" y2 1 =
          generate_key_pattern (fun _ => 0) 1 2 3 "binary" 0 1)) :=
  ⟨by omega,
   generate_key_pattern_binary_column (fun _ => 0) 1 2 3 0 1 (by omega) (by omega) (by omega)⟩

/-- C3 counterexample: calling the key-pattern generator with the
unsupported stripe_type "stripes" is not rejected with an error; it
produces an output grid, namely the untouched zero fill (the same call
with "binary" gives 255 at the same pixel). -/
theorem generate_key_pattern_invalid_type_counterexample :
    generate_key_pattern (fun _ => 0) 2 2 4 "stripes" 0 1 = 0 ∧
    generate_key_pattern (fun _ => 0) 2 2 4 "binary" 0 1 ≠ 0 := by
  constructor <;> decide

/-- C3 (amended): a stripe_type outside binary and sinusoidal is treated as
a silent no-op fill: every pixel of the returned grid is 0 and no error is
raised (the function has no error path). -/
theorem generate_key_pattern_invalid_type_zero (sinCol : ℕ → ℕ) (height width p : ℕ)
    (stripe_type : String) (hb : stripe_type ≠ "binary") (hs : stripe_type ≠ "sinusoidal")
    (y x : ℕ) :
    generate_key_pattern sinCol height width p stripe_type y x = 0 := by
  simp [generate_key_pattern, hb, hs]

theorem generate_key_pattern_invalid_type_zero_witness :
    ("stripes" ≠ "binary" ∧ "stripes" ≠ "sinusoidal") ∧
    generate_key_pattern (fun _ => 0) 2 2 4 "stripes" 0 1 = 0 :=
  ⟨⟨by decide, by decide⟩,
   generate_key_pattern_invalid_type_zero (fun _ => 0) 2 2 4 "stripes" (by decide) (by decide) 0 1⟩

/-- C10: for every average brightness (also outside the brightness range)
and every min_thickness ≤ max_thickness with min_brightness <
max_brightness, the mapped thickness lies in [min_thickness,
max_thickness]. -/
theorem map_brightness_to_thickness_range (avg : ℚ) (minT maxT : ℤ) (minB maxB : ℚ)
    (ht : minT ≤ maxT) (_hb : minB < maxB) :
    minT ≤ map_brightness_to_thickness avg minT maxT minB maxB ∧
    map_brightness_to_thickness avg minT maxT minB maxB ≤ maxT := by
  unfold map_brightness_to_thickness
  have hcast : (minT : ℚ) ≤ (maxT : ℚ) := by exact_mod_cast ht
  have hclip := npClip_mem
    ((minT : ℚ) + (avg - minB) * ((maxT : ℚ) - (minT : ℚ)) / (maxB - minB)) hcast
  exact pyInt_bounds hclip.1 hclip.2

theorem map_brightness_to_thickness_range_witness :
    ((1 : ℤ) ≤ 10 ∧ (15 : ℚ) < 240) ∧
    (1 ≤ map_brightness_to_thickness 300 1 10 15 240 ∧
      map_brightness_to_thickness 300 1 10 15 240 ≤ 10) :=
  ⟨⟨by norm_num, by norm_num⟩,
   map_brightness_to_thickness_range 300 1 10 15 240 (by norm_num) (by norm_num)⟩

/-- C8: holding the thickness and brightness ranges fixed (with
min_thickness ≤ max_thickness and min_brightness < max_brightness), the
brightness-to-thickness mapping is non-decreasing in the block's average
brightness. -/
theorem map_brightness_to_thickness_mono (b1 b2 : ℚ) (minT maxT : ℤ) (minB maxB : ℚ)
    (ht : minT ≤ maxT) (hb : minB < maxB) (h12 : b1 ≤ b2) :
    map_brightness_to_thickness b1 minT maxT minB maxB ≤
      map_brightness_to_thickness b2 minT maxT minB maxB := by
  unfold map_brightness_to_thickness
  apply pyInt_mono
  apply npClip_mono
  have hden : (0 : ℚ) < maxB - minB := sub_pos.mpr hb
  have hnum : (0 : ℚ) ≤ (maxT : ℚ) - (minT : ℚ) := by
    have : (minT : ℚ) ≤ (maxT : ℚ) := by exact_mod_cast ht
    linarith
  have hmul : (b1 - minB) * ((maxT : ℚ) - (minT : ℚ)) ≤
      (b2 - minB) * ((maxT : ℚ) - (minT : ℚ)) :=
    mul_le_mul_of_nonneg_right (by linarith) hnum
  have hdiv := div_le_div_of_nonneg_right hmul hden.le
  linarith

theorem map_brightness_to_thickness_mono_witness :
    ((1 : ℤ) ≤ 10 ∧ (15 : ℚ) < 240 ∧ (100 : ℚ) ≤ 200) ∧
    map_brightness_to_thickness 100 1 10 15 240 ≤
      map_brightness_to_thickness 200 1 10 15 240 :=
  ⟨⟨by norm_num, by norm_num, by norm_num⟩,
   map_brightness_to_thickness_mono 100 200 1 10 15 240 (by norm_num) (by norm_num)
     (by norm_num)⟩

/-- C5: at the amplitude extremes the final encode blend is exact: with
amplitude 0 the output pixel equals the line-density pixel (which the
chunk loop only ever writes as 0 or 255), and with amplitude 1 it equals
the quantized stripe/text blend K * (1 - T) + K_shifted * T (floor of the
float blend, which is already inside [0, 255]).  The key-pattern pixels k
and ks are any uint8 values ≤ 255, covering binary stripes (0/255) and
sinusoidal stripes (intermediate values) alike. -/
theorem encode_amplitude_extremes (line k ks : ℕ) (t : ℚ)
    (hline : line = 0 ∨ line = 255) (hk : k ≤ 255) (hks : ks ≤ 255)
    (ht0 : 0 ≤ t) (ht1 : t ≤ 1) :
    encode_pixel line (stripe_pixel k ks t) 0 = line ∧
    encode_pixel line (stripe_pixel k ks t) 1 = (⌊stripe_pixel k ks t⌋).toNat := by
  have hs := stripe_pixel_bounds hk hks ht0 ht1
  constructor
  · have e1 : (line : ℚ) * (1 - 0) + stripe_pixel k ks t * 0 = (line : ℚ) := by ring
    rw [encode_pixel, e1]
    exact quantize_pixel_natCast line (by rcases hline with h | h <;> omega)
  · have e1 : (line : ℚ) * (1 - 1) + stripe_pixel k ks t * 1 = stripe_pixel k ks t := by
      ring
    rw [encode_pixel, e1]
    unfold quantize_pixel npClip pyInt
    rw [max_eq_left hs.1, min_eq_left hs.2, if_pos hs.1]

theorem encode_amplitude_extremes_witness :
    (((255 : ℕ) = 0 ∨ (255 : ℕ) = 255) ∧ (127 : ℕ) ≤ 255 ∧ (255 : ℕ) ≤ 255 ∧
      (0 : ℚ) ≤ 1 / 2 ∧ (1 : ℚ) / 2 ≤ 1) ∧
    (encode_pixel 255 (stripe_pixel 127 255 (1 / 2)) 0 = 255 ∧
      encode_pixel 255 (stripe_pixel 127 255 (1 / 2)) 1 =
        (⌊stripe_pixel 127 255 (1 / 2)⌋).toNat) :=
  ⟨⟨Or.inr rfl, by omega, by omega, by norm_num, by norm_num⟩,
   encode_amplitude_extremes 255 127 255 (1 / 2) (Or.inr rfl) (by omega) (by omega)
     (by norm_num) (by norm_num)⟩

/-! ### Helper lemmas about the cyclic shift -/

theorem wrapIdx_lt (width : ℕ) (hw : 0 < width) (i : ℤ) : wrapIdx width i < width := by
  unfold wrapIdx
  have hw' : ((width : ℤ)) ≠ 0 := by exact_mod_cast hw.ne'
  have h1 : 0 ≤ i % (width : ℤ) := Int.emod_nonneg i hw'
  have h2 : i % (width : ℤ) < width := Int.emod_lt_of_pos i (by exact_mod_cast hw)
  omega

theorem wrapIdx_mod (width p : ℕ) (hw : 0 < width) (hp : 0 < p) (hd : p ∣ width) (i : ℤ) :
    (wrapIdx width i) % p = (i % (p : ℤ)).toNat := by
  have hw' : ((width : ℤ)) ≠ 0 := by exact_mod_cast hw.ne'
  have hp' : ((p : ℤ)) ≠ 0 := by exact_mod_cast hp.ne'
  have h1 : 0 ≤ i % (width : ℤ) := Int.emod_nonneg i hw'
  have h3 : 0 ≤ i % (p : ℤ) := Int.emod_nonneg i hp'
  have hd' : (p : ℤ) ∣ (width : ℤ) := by exact_mod_cast hd
  have key : ((wrapIdx width i % p : ℕ) : ℤ) = ((i % (p : ℤ)).toNat : ℤ) := by
    rw [Int.ofNat_emod]
    unfold wrapIdx
    rw [Int.toNat_of_nonneg h1, Int.toNat_of_nonneg h3, Int.emod_emod_of_dvd i hd']
  exact_mod_cast key

theorem half_shift_emod (s r : ℕ) (hr : r < 2 * s) :
    ((((r : ℤ) - (s : ℤ)) % ((2 * s : ℕ) : ℤ)).toNat < s) ↔ ¬ (r < s) := by
  rcases lt_or_ge r s with hc | hc
  · have hv : ((r : ℤ) - (s : ℤ)) % ((2 * s : ℕ) : ℤ) = (r : ℤ) + (s : ℤ) := by
      have e1 : (r : ℤ) - (s : ℤ) = ((r : ℤ) + (s : ℤ)) + ((2 * s : ℕ) : ℤ) * (-1) := by
        push_cast
        ring
      rw [e1, Int.add_mul_emod_self_left]
      exact Int.emod_eq_of_lt (by positivity) (by push_cast; omega)
    rw [hv]
    omega
  · have hv : ((r : ℤ) - (s : ℤ)) % ((2 * s : ℕ) : ℤ) = (r : ℤ) - (s : ℤ) := by
      exact Int.emod_eq_of_lt (by omega) (by push_cast; omega)
    rw [hv]
    omega

/-- C6: the horizontal shift of a key pattern is cyclic with period equal
to the image width: shifting by s and by s + width produce identical
grids. -/
theorem generate_shifted_key_wrap (K : ℕ → ℕ → ℕ) (width : ℕ) (shift : ℤ) :
    generate_shifted_key K width shift = generate_shifted_key K width (shift + width) := by
  funext y x
  unfold generate_shifted_key wrapIdx
  congr 1
  have h : (x : ℤ) - (shift + width) = ((x : ℤ) - shift) + (width : ℤ) * (-1) := by ring
  rw [h, Int.add_mul_emod_self_left]

/-- C9: shifting a key pattern by 0 pixels is the identity transform on
every pixel inside the image. -/
theorem generate_shifted_key_zero (K : ℕ → ℕ → ℕ) (width y x : ℕ) (hx : x < width) :
    generate_shifted_key K width 0 y x = K y x := by
  unfold generate_shifted_key wrapIdx
  congr 1
  rw [sub_zero, Int.emod_eq_of_lt (by positivity) (by exact_mod_cast hx)]
  exact Int.toNat_natCast x

theorem generate_shifted_key_zero_witness :
    2 < 3 ∧
    generate_shifted_key (fun y x => y + 10 * x) 3 0 1 2 = (fun (y x : ℕ) => y + 10 * x) 1 2 :=
  ⟨by omega, generate_shifted_key_zero (fun y x => y + 10 * x) 3 1 2 (by omega)⟩

/-- C4 counterexample: with period p = 2 and width 3 (not a multiple of
the period), the half-period shifted pattern agrees with the original at
column 0 of row 0, so it does not differ at every column: the cyclic wrap
breaks the stripe periodicity when the width is not a multiple of p. -/
theorem shifted_key_differs_counterexample :
    0 < (3 : ℕ) ∧
    generate_shifted_key (generate_key_pattern (fun _ => 0) 1 3 2 "binary") 3 1 0 0 =
      generate_key_pattern (fun _ => 0) 1 3 2 "binary" 0 0 := by
  constructor
  · omega
  · decide

/-- C4 (amended: the width must be a multiple of the period): for every
even period p in \x7b2, 4, 6, 10\x7d, every height and every width that is
a multiple of p, the binary key pattern shifted by p / 2 differs from the
original at every in-range pixel. -/
theorem shifted_key_differs_everywhere (sinCol : ℕ → ℕ) (height width p y x : ℕ)
    (hp : p = 2 ∨ p = 4 ∨ p = 6 ∨ p = 10) (hdvd : p ∣ width)
    (hy : y < height) (hx : x < width) :
    generate_shifted_key (generate_key_pattern sinCol height width p "binary") width
        ((p / 2 : ℕ) : ℤ) y x ≠
      generate_key_pattern sinCol height width p "binary" y x := by
  have hp0 : 0 < p := by rcases hp with h | h | h | h <;> omega
  have he : 2 * (p / 2) = p := by rcases hp with h | h | h | h <;> omega
  have hw0 : 0 < width := lt_of_le_of_lt (Nat.zero_le x) hx
  have hrp : x % p < p := Nat.mod_lt x hp0
  have hwlt : wrapIdx width ((x : ℤ) - ((p / 2 : ℕ) : ℤ)) < width :=
    wrapIdx_lt width hw0 _
  -- reduce the shifted column's stripe test to the half-period flip
  have hmod : (wrapIdx width ((x : ℤ) - ((p / 2 : ℕ) : ℤ))) % p =
      (((x : ℤ) - ((p / 2 : ℕ) : ℤ)) % (p : ℤ)).toNat :=
    wrapIdx_mod width p hw0 hp0 hdvd _
  have hcast : ((x % p : ℕ) : ℤ) % (p : ℤ) = (x : ℤ) % (p : ℤ) := by
    rw [Int.ofNat_emod]
    exact Int.emod_emod_of_dvd _ (dvd_refl (p : ℤ))
  have hstep : ((x : ℤ) - ((p / 2 : ℕ) : ℤ)) % (p : ℤ) =
      (((x % p : ℕ) : ℤ) - ((p / 2 : ℕ) : ℤ)) % (p : ℤ) := by
    rw [Int.sub_emod, ← hcast, ← Int.sub_emod]
  have hflip : ((wrapIdx width ((x : ℤ) - ((p / 2 : ℕ) : ℤ))) % p < p / 2) ↔
      ¬ (x % p < p / 2) := by
    rw [hmod, hstep]
    have h2 := half_shift_emod (p / 2) (x % p) (by omega)
    rw [he] at h2
    exact h2
  unfold generate_shifted_key generate_key_pattern
  rw [if_pos (And.intro hy hwlt), if_pos (And.intro hy hx)]
  rw [if_pos (rfl : "binary" = "binary"), if_pos (rfl : "binary" = "binary")]
  by_cases hb : x % p < p / 2
  · rw [if_pos hb, if_neg (fun h => (hflip.mp h) hb)]
    omega
  · rw [if_neg hb, if_pos (hflip.mpr hb)]
    omega

theorem shifted_key_differs_everywhere_witness :
    (((2 : ℕ) = 2 ∨ (2 : ℕ) = 4 ∨ (2 : ℕ) = 6 ∨ (2 : ℕ) = 10) ∧ (2 : ℕ) ∣ 4 ∧
      0 < 1 ∧ 0 < 4) ∧
    generate_shifted_key (generate_key_pattern (fun _ => 0) 1 4 2 "binary") 4
        ((2 / 2 : ℕ) : ℤ) 0 0 ≠
      generate_key_pattern (fun _ => 0) 1 4 2 "binary" 0 0 :=
  ⟨⟨Or.inl rfl, by omega, by omega, by omega⟩,
   shifted_key_differs_everywhere (fun _ => 0) 1 4 2 0 0 (Or.inl rfl) (by omega) (by omega)
     (by omega)⟩

/-! ### Helper lemmas for the text mask -/

theorem foldl_fixed {α β : Type} (xs : List α) (c : β) : xs.foldl (fun c _ => c) c = c := by
  induction xs generalizing c with
  | nil => rfl
  | cons h t ih => exact ih c

theorem tile_text_nil (fb : FontBackend) (text_h : ℕ) (ys xs : List ℤ) :
    tile_text fb [] text_h ys xs = fun _ _ => 0 := by
  unfold tile_text
  simp only [List.foldl_nil, foldl_fixed]

theorem warp_rotate_zero (taps : ℕ → ℕ → List (ℚ × ℤ × ℤ)) (n : ℕ) (y x : ℕ) :
    warp_rotate taps n (fun _ _ => 0) y x = 0 := by
  unfold warp_rotate
  apply List.sum_eq_zero
  intro q hq
  simp only [List.mem_map] at hq
  obtain ⟨t, _, ht⟩ := hq
  rw [← ht]
  split <;> simp

/-- C7: rendering the empty text produces a text mask that is zero at
every pixel, for every height, width, rotation angle (through its
cosine/sine and the angle-zero test), spacing parameters and font
backend. -/
theorem create_text_image_empty (fb : FontBackend) (taps : ℕ → ℕ → List (ℚ × ℤ × ℤ))
    (height width : ℕ) (cosA sinA : ℚ) (angle_zero : Bool) (spacing_x spacing_y : ℚ)
    (letter_spacing : ℕ) (y x : ℕ) :
    create_text_image fb taps [] height width cosA sinA angle_zero spacing_x spacing_y
      letter_spacing y x = 0 := by
  unfold create_text_image char_layout
  simp only [List.foldl_nil, tile_text_nil]
  cases angle_zero
  · simp [warp_rotate_zero]
  · simp

end IPI
